import Mathlib

/-!
Shallow embedding of the chatbot backend (`backend/app_fastapi.py`):
sliding-window rate limiter, JWT-based authentication, user registration
and login, the chat orchestration route, and the history route.

Modelling conventions:
* instants (`time.time()`, `datetime.now()`, `datetime.utcnow()`) are
  rationals measured in seconds;
* the MAC signature of a JWT is modelled symbolically: a token records the
  secret it was signed with, and signature verification succeeds exactly
  when that secret equals the verification secret;
* the Mongo collections are lists of records; `find_one` is first-match
  lookup, `insert_one` appends;
* external effects whose outcome the code merely branches on (whether the
  generation model loaded, the outcome of the generation call, the outcome
  of the conversation insert) are passed in as explicit outcome values.
-/

namespace Chatbot

/-- HTTP error as raised by `HTTPException(status_code=..., detail=...)`. -/
structure HttpErr where
  status : Nat
  detail : String
deriving DecidableEq, Repr

/-! ## Rate limiter (`class RateLimiter`) -/

/-- The `self.requests` dict: client ip ↦ list of request instants. -/
abbrev RLMap := List (String × List ℚ)

/-- Python dict lookup `self.requests[client_ip]` / membership test. -/
def rlLookup : RLMap → String → Option (List ℚ)
  | [], _ => none
  | (k, v) :: rest, c => if k = c then some v else rlLookup rest c

/-- Python dict assignment `self.requests[client_ip] = v`. -/
def rlSet : RLMap → String → List ℚ → RLMap
  | [], c, v => [(c, v)]
  | (k, w) :: rest, c, v =>
      if k = c then (c, v) :: rest else (k, w) :: rlSet rest c v

/-- `[t for t in request_times if current_time - t < 60]`. -/
def prune (request_times : List ℚ) (now : ℚ) : List ℚ :=
  request_times.filter (fun t => decide (now - t < 60))

/-- `RateLimiter.check(client_ip)` at instant `now`, with
`limit = self.requests_per_minute` (default 60). Returns the boolean
decision together with the updated `self.requests` dict. -/
def RateLimiter.check (limit : Nat) (m : RLMap) (client_ip : String) (now : ℚ) :
    Bool × RLMap :=
  match rlLookup m client_ip with
  | some request_times =>
      let pruned := prune request_times now
      if limit ≤ pruned.length then (false, m)
      else (true, rlSet m client_ip (pruned ++ [now]))
  | none => (true, rlSet m client_ip [now])

/-- Repeated calls of `check` for one client at the given instants,
collecting the decisions. -/
def runChecks (limit : Nat) (m : RLMap) (c : String) :
    List ℚ → RLMap × List Bool
  | [] => (m, [])
  | t :: ts =>
      let step := RateLimiter.check limit m c t
      let rest := runChecks limit step.2 c ts
      (rest.1, step.1 :: rest.2)

/-- Repeated calls of `check` for an arbitrary interleaving of clients,
keeping only the final dict. -/
def runTrace (limit : Nat) : RLMap → List (String × ℚ) → RLMap
  | m, [] => m
  | m, ct :: rest => runTrace limit (RateLimiter.check limit m ct.1 ct.2).2 rest

/-- The stored timestamp list of a client, `[]` when the client is absent. -/
def entryOf (m : RLMap) (c : String) : List ℚ :=
  (rlLookup m c).getD []

/-! ## JWT (`jwt.encode` / `jwt.decode` with `HS256`) -/

/-- Decoded JWT payload: optional `"sub"` claim and the `"exp"` claim. -/
structure JwtPayload where
  sub : Option String
  exp : ℚ
deriving DecidableEq, Repr

/-- A signed token: its payload plus, symbolically, the secret used by
`jwt.encode` to MAC it. -/
structure JwtToken where
  payload : JwtPayload
  signedWith : String
deriving DecidableEq, Repr

/-- Outcomes of `jwt.decode`; both are subclasses of `jwt.PyJWTError`. -/
inductive JwtError where
  | invalid
  | expired
deriving DecidableEq, Repr

/-- `SECRET_KEY = os.getenv("JWT_SECRET", "your_secret_key")`. -/
def SECRET_KEY : String := "your_secret_key"

/-- `ACCESS_TOKEN_EXPIRE_MINUTES = 30`. -/
def ACCESS_TOKEN_EXPIRE_MINUTES : ℚ := 30

/-- `jwt.encode(payload, secret, algorithm=ALGORITHM)`. -/
def jwtEncode (payload : JwtPayload) (secret : String) : JwtToken :=
  ⟨payload, secret⟩

/-- `jwt.decode(token, secret, algorithms=[ALGORITHM])` at instant `now`:
the signature is checked against `secret`, and the `exp` claim is checked
against the current time (expired when `exp ≤ now`, as PyJWT does). -/
def jwtDecode (token : JwtToken) (secret : String) (now : ℚ) :
    Except JwtError JwtPayload :=
  if token.signedWith ≠ secret then .error .invalid
  else if token.payload.exp ≤ now then .error .expired
  else .ok token.payload

/-! ## Users collection -/

/-- One document of `db.users`. -/
structure UserRec where
  oid : Nat
  username : String
  email : String
  password : String
  created_at : ℚ
deriving DecidableEq, Repr

/-- `db.users.find_one({"username": name})`: first matching document. -/
def findUser (users : List UserRec) (name : String) : Option UserRec :=
  users.find? (fun u => decide (u.username = name))

/-- The `credentials_exception` of `get_current_user`. -/
def credentialsException : HttpErr :=
  ⟨401, "Could not validate credentials"⟩

/-- `get_current_user`: decode the bearer token, read its `"sub"` claim,
look the subject up in `db.users`; any failure raises the same
`credentials_exception`. -/
def get_current_user (users : List UserRec) (token : JwtToken) (now : ℚ) :
    Except HttpErr UserRec :=
  match jwtDecode token SECRET_KEY now with
  | .error _ => .error credentialsException
  | .ok payload =>
      match payload.sub with
      | none => .error credentialsException
      | some username =>
          match findUser users username with
          | none => .error credentialsException
          | some user => .ok user

/-- Request body of `/api/register`. -/
structure UserCreate where
  username : String
  email : String
  password : String
deriving DecidableEq, Repr

/-- `register`: duplicate-username check, then insert.  `newId` is the
`_id` the store assigns to the inserted document. -/
def register (users : List UserRec) (u : UserCreate) (now : ℚ) (newId : Nat) :
    Except HttpErr String × List UserRec :=
  match findUser users u.username with
  | some _ => (.error ⟨400, "Username already registered"⟩, users)
  | none =>
      (.ok "User created successfully",
       users ++ [⟨newId, u.username, u.email, u.password, now⟩])

/-- Success body of `/api/login`. -/
structure TokenResp where
  access_token : JwtToken
  token_type : String
deriving DecidableEq, Repr

/-- `login`: look up the user, compare passwords, and on success mint a
token with `sub = username` and `exp = now + 30 minutes`; the two failure
modes raise the same 401. -/
def login (users : List UserRec) (username password : String) (now : ℚ) :
    Except HttpErr TokenResp :=
  match findUser users username with
  | none => .error ⟨401, "Incorrect username or password"⟩
  | some user =>
      if user.password ≠ password then
        .error ⟨401, "Incorrect username or password"⟩
      else
        .ok ⟨jwtEncode ⟨some username, now + ACCESS_TOKEN_EXPIRE_MINUTES * 60⟩
               SECRET_KEY,
             "bearer"⟩

/-! ## Conversations collection, chat route, history route -/

/-- One document of `db.conversations`. -/
structure Turn where
  oid : Nat
  user_id : String
  user_message : String
  bot_response : String
  timestamp : ℚ
deriving DecidableEq, Repr

/-- The `/api/chat` route body.  `mdl` is whether the generation pipeline
loaded; `gen` is the outcome of calling it (`.error` = the call raised);
`ins` is the outcome of `db.conversations.insert_one` (`.error` = the
insert raised).  Returns the HTTP outcome and the updated collection. -/
def chat (mdl : Bool) (gen : Except String String) (ins : Except String Unit)
    (users : List UserRec) (token : JwtToken) (now : ℚ) (msg : String)
    (newId : Nat) (store : List Turn) :
    Except HttpErr String × List Turn :=
  match get_current_user users token now with
  | .error e => (.error e, store)
  | .ok user =>
      if mdl = false then (.error ⟨503, "Model not loaded"⟩, store)
      else
        match gen with
        | .error e => (.error ⟨500, e⟩, store)
        | .ok bot_response =>
            match ins with
            | .error e => (.error ⟨500, e⟩, store)
            | .ok _ =>
                (.ok bot_response,
                 store ++ [⟨newId, toString user.oid, msg, bot_response, now⟩])

/-- A full `/api/chat` request: the rate-limit middleware runs first,
keyed by the client's address; only an admitted request reaches the
route. -/
def handleChatRequest (limit : Nat) (m : RLMap) (client_ip : String)
    (mdl : Bool) (gen : Except String String) (ins : Except String Unit)
    (users : List UserRec) (token : JwtToken) (now : ℚ) (msg : String)
    (newId : Nat) (store : List Turn) :
    Except HttpErr String × RLMap × List Turn :=
  let gate := RateLimiter.check limit m client_ip now
  if gate.1 = false then (.error ⟨429, "Too many requests"⟩, gate.2, store)
  else
    let r := chat mdl gen ins users token now msg newId store
    (r.1, gate.2, r.2)

/-- Comparator of `.sort("timestamp", -1)`: `a` before `b` when
`b.timestamp ≤ a.timestamp`. -/
def descTs (a b : Turn) : Bool :=
  decide (b.timestamp ≤ a.timestamp)

/-- `/api/history`: the user's turns, newest first, truncated to 50. -/
def get_history (store : List Turn) (user : UserRec) : List Turn :=
  (((store.filter (fun t => decide (t.user_id = toString user.oid))).mergeSort
      descTs).take 50)

/-! ## C6: duplicate registration leaves the user store unchanged -/

/-- C6: when the requested username already has a record, `register` fails
with the duplicate-username error and returns the user collection exactly
as it was: nothing is inserted and no existing record is altered. -/
theorem register_duplicate_username (users : List UserRec) (u : UserCreate)
    (now : ℚ) (newId : Nat) (r : UserRec)
    (hdup : findUser users u.username = some r) :
    register users u now newId =
      (.error ⟨400, "Username already registered"⟩, users) := by
  simp [register, hdup]

theorem register_duplicate_username_witness :
    register [⟨0, "alice", "alice@x.com", "secret", 0⟩]
        ⟨"alice", "other@x.com", "pw2"⟩ 5 1 =
      (.error ⟨400, "Username already registered"⟩,
       [⟨0, "alice", "alice@x.com", "secret", 0⟩]) :=
  register_duplicate_username _ _ 5 1 ⟨0, "alice", "alice@x.com", "secret", 0⟩
    (by decide)

/-! ## C7: login failures are indistinguishable -/

/-- C7: `login` with a nonexistent username and `login` with an existing
username but wrong password produce the identical error — same status and
same message — leaking nothing about whether the username exists. -/
theorem login_uniform_error (users : List UserRec) (u1 p1 u2 p2 : String)
    (now1 now2 : ℚ) (r : UserRec)
    (habsent : findUser users u1 = none)
    (hfound : findUser users u2 = some r) (hpw : r.password ≠ p2) :
    login users u1 p1 now1 = .error ⟨401, "Incorrect username or password"⟩ ∧
    login users u2 p2 now2 = .error ⟨401, "Incorrect username or password"⟩ := by
  constructor
  · simp [login, habsent]
  · simp [login, hfound, hpw]

theorem login_uniform_error_witness :
    login [⟨0, "bob", "bob@x.com", "pw", 0⟩] "alice" "whatever" 3 =
      .error ⟨401, "Incorrect username or password"⟩ ∧
    login [⟨0, "bob", "bob@x.com", "pw", 0⟩] "bob" "wrong" 4 =
      .error ⟨401, "Incorrect username or password"⟩ :=
  login_uniform_error _ "alice" "whatever" "bob" "wrong" 3 4
    ⟨0, "bob", "bob@x.com", "pw", 0⟩ (by decide) (by decide) (by decide)

/-! ## C9: a token signed with a different secret is always rejected -/

/-- C9: whatever the payload (any subject, any expiry), a token whose
signature was made with a secret other than the service's `SECRET_KEY`
fails verification in `get_current_user` and yields the generic 401
credentials error, for every user store and every instant. -/
theorem wrong_secret_always_rejected (tok : JwtToken) (users : List UserRec)
    (now : ℚ) (h : tok.signedWith ≠ SECRET_KEY) :
    get_current_user users tok now = .error credentialsException := by
  simp [get_current_user, jwtDecode, h]

theorem wrong_secret_always_rejected_witness :
    get_current_user [⟨0, "alice", "alice@x.com", "secret", 0⟩]
        ⟨⟨some "alice", 99999⟩, "attacker_secret"⟩ 0 =
      .error credentialsException :=
  wrong_secret_always_rejected ⟨⟨some "alice", 99999⟩, "attacker_secret"⟩
    [⟨0, "alice", "alice@x.com", "secret", 0⟩] 0 (by decide)

/-! ## C10: a valid-signature, unexpired token without a sub claim -/

/-- C10: a token correctly signed with the service secret and not yet
expired, but whose payload has no `"sub"` claim, is rejected by
`get_current_user` with the same generic 401 credentials error used for
malformed tokens — for every user store, so no user lookup can influence
the outcome. -/
theorem missing_sub_rejected (tok : JwtToken) (users : List UserRec) (now : ℚ)
    (hsig : tok.signedWith = SECRET_KEY) (hexp : now < tok.payload.exp)
    (hsub : tok.payload.sub = none) :
    get_current_user users tok now = .error credentialsException := by
  simp [get_current_user, jwtDecode, hsig, not_le.mpr hexp, hsub]

theorem missing_sub_rejected_witness :
    get_current_user [⟨0, "alice", "alice@x.com", "secret", 0⟩]
        ⟨⟨none, 100⟩, SECRET_KEY⟩ 0 =
      .error credentialsException :=
  missing_sub_rejected ⟨⟨none, 100⟩, SECRET_KEY⟩
    [⟨0, "alice", "alice@x.com", "secret", 0⟩] 0 (by decide) (by decide)
    (by decide)

/-! ## C2: thirty-minute token lifetime -/

/-- C2: a token minted by a successful `login` at instant `now0` carries
subject `u` and expiry `now0 + 30` minutes; `jwt.decode` against the
service secret succeeds and yields that subject at every instant strictly
before the expiry and fails with the expiry-classified error at every
instant at or after it.  Moreover, for an arbitrary token, decoding
succeeds iff its signature verifies against the service secret and the
current time is strictly before its `exp`. -/
theorem token_thirty_minute_validity (users : List UserRec) (u p : String)
    (now0 : ℚ) (resp : TokenResp)
    (hlogin : login users u p now0 = .ok resp) :
    (∀ now : ℚ, now < now0 + ACCESS_TOKEN_EXPIRE_MINUTES * 60 →
        jwtDecode resp.access_token SECRET_KEY now =
          .ok ⟨some u, now0 + ACCESS_TOKEN_EXPIRE_MINUTES * 60⟩) ∧
    (∀ now : ℚ, now0 + ACCESS_TOKEN_EXPIRE_MINUTES * 60 ≤ now →
        jwtDecode resp.access_token SECRET_KEY now = .error .expired) ∧
    (∀ (tok : JwtToken) (now : ℚ),
        (∃ pl, jwtDecode tok SECRET_KEY now = .ok pl) ↔
          tok.signedWith = SECRET_KEY ∧ now < tok.payload.exp) := by
  have htok : resp.access_token =
      ⟨⟨some u, now0 + ACCESS_TOKEN_EXPIRE_MINUTES * 60⟩, SECRET_KEY⟩ := by
    cases hfind : findUser users u with
    | none => simp [login, hfind] at hlogin
    | some user =>
        simp only [login, hfind] at hlogin
        by_cases hpw : user.password ≠ p
        · rw [if_pos hpw] at hlogin
          exact absurd hlogin (by simp)
        · rw [if_neg hpw] at hlogin
          have : (⟨jwtEncode ⟨some u, now0 + ACCESS_TOKEN_EXPIRE_MINUTES * 60⟩
              SECRET_KEY, "bearer"⟩ : TokenResp) = resp := by
            exact Except.ok.inj hlogin
          rw [← this]
          rfl
  refine ⟨?_, ?_, ?_⟩
  · intro now hnow
    rw [htok]
    simp [jwtDecode, not_le.mpr hnow]
  · intro now hnow
    rw [htok]
    simp [jwtDecode, hnow]
  · intro tok now
    constructor
    · rintro ⟨pl, hpl⟩
      by_cases hsig : tok.signedWith = SECRET_KEY
      · refine ⟨hsig, ?_⟩
        by_cases hexp : tok.payload.exp ≤ now
        · simp [jwtDecode, hsig, hexp] at hpl
        · exact lt_of_not_le hexp
      · simp [jwtDecode, hsig] at hpl
    · rintro ⟨hsig, hexp⟩
      exact ⟨tok.payload, by simp [jwtDecode, hsig, not_le.mpr hexp]⟩

theorem token_thirty_minute_validity_witness :
    jwtDecode
        (jwtEncode ⟨some "alice", 0 + ACCESS_TOKEN_EXPIRE_MINUTES * 60⟩
          SECRET_KEY) SECRET_KEY 900 =
      .ok ⟨some "alice", 0 + ACCESS_TOKEN_EXPIRE_MINUTES * 60⟩ :=
  (token_thirty_minute_validity [⟨0, "alice", "alice@x.com", "secret", 0⟩]
    "alice" "secret" 0
    ⟨jwtEncode ⟨some "alice", 0 + ACCESS_TOKEN_EXPIRE_MINUTES * 60⟩ SECRET_KEY,
     "bearer"⟩ rfl).1 900
    (by norm_num [ACCESS_TOKEN_EXPIRE_MINUTES])

/-! ## C3: nothing is persisted before a successful generation -/

/-- An expired token (by signature or by time) always fails
`get_current_user`. -/
lemma expired_token_auth_fails (users : List UserRec) (tok : JwtToken)
    (now : ℚ) (h : tok.payload.exp ≤ now) :
    get_current_user users tok now = .error credentialsException := by
  by_cases hsig : tok.signedWith = SECRET_KEY
  · simp [get_current_user, jwtDecode, hsig, h]
  · simp [get_current_user, jwtDecode, hsig]

/-- C3: a chat request that fails before the persistence step — denied by
the rate limiter, failed authentication (in particular an expired token),
generation model not loaded, or a raising generation call — appends
nothing to the conversation store; conversely, whenever the store did
change, the generation call had completed successfully (and its text is
what the caller receives). -/
theorem no_persistence_before_generation (limit : Nat) (m : RLMap)
    (client_ip : String) (mdl : Bool) (gen : Except String String)
    (ins : Except String Unit) (users : List UserRec) (token : JwtToken)
    (now : ℚ) (msg : String) (newId : Nat) (store : List Turn) :
    ((RateLimiter.check limit m client_ip now).1 = false →
        (handleChatRequest limit m client_ip mdl gen ins users token now msg
            newId store).2.2 = store) ∧
    (∀ e, get_current_user users token now = .error e →
        (chat mdl gen ins users token now msg newId store).2 = store) ∧
    (mdl = false →
        (chat mdl gen ins users token now msg newId store).2 = store) ∧
    (∀ e, gen = .error e →
        (chat mdl gen ins users token now msg newId store).2 = store) ∧
    (token.payload.exp ≤ now →
        (chat mdl gen ins users token now msg newId store).2 = store) ∧
    ((handleChatRequest limit m client_ip mdl gen ins users token now msg
          newId store).2.2 ≠ store →
        ∃ text, gen = .ok text ∧
          (handleChatRequest limit m client_ip mdl gen ins users token now msg
              newId store).1 = .ok text ∧ ins = .ok ()) := by
  refine ⟨?_, ?_, ?_, ?_, ?_, ?_⟩
  · intro hgate
    simp [handleChatRequest, hgate]
  · intro e hgcu
    simp [chat, hgcu]
  · intro hmdl
    cases hgcu : get_current_user users token now with
    | error e => simp [chat, hgcu]
    | ok user => simp [chat, hgcu, hmdl]
  · intro e hgen
    cases hgcu : get_current_user users token now with
    | error e2 => simp [chat, hgcu]
    | ok user =>
        cases mdl with
        | false => simp [chat, hgcu]
        | true => simp [chat, hgcu, hgen]
  · intro hexp
    simp [chat, expired_token_auth_fails users token now hexp]
  · intro hne
    by_cases hgate : (RateLimiter.check limit m client_ip now).1 = false
    · simp [handleChatRequest, hgate] at hne
    · simp only [handleChatRequest, if_neg hgate] at hne ⊢
      cases hgcu : get_current_user users token now with
      | error e => simp [chat, hgcu] at hne
      | ok user =>
          cases mdl with
          | false => simp [chat, hgcu] at hne
          | true =>
              cases hgen : gen with
              | error e => simp [chat, hgcu, hgen] at hne
              | ok text =>
                  cases hins : ins with
                  | error e => simp [chat, hgcu, hgen, hins] at hne
                  | ok u =>
                      cases u
                      exact ⟨text, rfl, by simp [chat, hgcu, hgen, hins], rfl⟩

theorem no_persistence_before_generation_witness :
    (handleChatRequest 60 [] "1.2.3.4" true (.ok "generated")
        (.ok ()) [⟨0, "alice", "alice@x.com", "secret", 0⟩]
        ⟨⟨some "alice", 0⟩, SECRET_KEY⟩ 5 "hello" 1 []).2.2 = [] :=
  (no_persistence_before_generation 60 [] "1.2.3.4" true (.ok "generated")
    (.ok ()) [⟨0, "alice", "alice@x.com", "secret", 0⟩]
    ⟨⟨some "alice", 0⟩, SECRET_KEY⟩ 5 "hello" 1 []).2.2.2.2.1
    (by norm_num)

/-! ## C4: a failed append masks a successful generation -/

/-- C4: when authentication succeeded, the model is loaded, the generation
call returned `text`, and the conversation insert raised `e`, the chat
route answers with the generic 500 internal failure, appends nothing, and
in particular never returns the generated text. -/
theorem persistence_failure_masks_generation (gen : Except String String)
    (ins : Except String Unit) (users : List UserRec) (token : JwtToken)
    (now : ℚ) (msg : String) (newId : Nat) (store : List Turn)
    (user : UserRec) (text e : String)
    (hauth : get_current_user users token now = .ok user)
    (hgen : gen = .ok text) (hins : ins = .error e) :
    (chat true gen ins users token now msg newId store).1 = .error ⟨500, e⟩ ∧
    (chat true gen ins users token now msg newId store).2 = store ∧
    ∀ s, (chat true gen ins users token now msg newId store).1 ≠ .ok s := by
  refine ⟨?_, ?_, ?_⟩
  · simp [chat, hauth, hgen, hins]
  · simp [chat, hauth, hgen, hins]
  · intro s
    simp [chat, hauth, hgen, hins]

theorem persistence_failure_masks_generation_witness :
    (chat true (.ok "generated") (.error "db down")
        [⟨0, "alice", "alice@x.com", "secret", 0⟩]
        ⟨⟨some "alice", 100⟩, SECRET_KEY⟩ 0 "hello" 1 []).1 =
      .error ⟨500, "db down"⟩ ∧
    (chat true (.ok "generated") (.error "db down")
        [⟨0, "alice", "alice@x.com", "secret", 0⟩]
        ⟨⟨some "alice", 100⟩, SECRET_KEY⟩ 0 "hello" 1 []).2 = [] :=
  ⟨(persistence_failure_masks_generation (.ok "generated") (.error "db down")
      [⟨0, "alice", "alice@x.com", "secret", 0⟩]
      ⟨⟨some "alice", 100⟩, SECRET_KEY⟩ 0 "hello" 1 []
      ⟨0, "alice", "alice@x.com", "secret", 0⟩ "generated" "db down"
      rfl rfl rfl).1,
   (persistence_failure_masks_generation (.ok "generated") (.error "db down")
      [⟨0, "alice", "alice@x.com", "secret", 0⟩]
      ⟨⟨some "alice", 100⟩, SECRET_KEY⟩ 0 "hello" 1 []
      ⟨0, "alice", "alice@x.com", "secret", 0⟩ "generated" "db down"
      rfl rfl rfl).2.1⟩

/-! ## C8: history is the user's own turns, newest first, at most 50 -/

lemma descTs_trans : ∀ a b c : Turn, descTs a b → descTs b c → descTs a c := by
  intro a b c hab hbc
  have h1 : b.timestamp ≤ a.timestamp := of_decide_eq_true hab
  have h2 : c.timestamp ≤ b.timestamp := of_decide_eq_true hbc
  exact decide_eq_true (le_trans h2 h1)

lemma descTs_total : ∀ a b : Turn, descTs a b || descTs b a := by
  intro a b
  rcases le_total b.timestamp a.timestamp with h | h
  · simp [descTs, h]
  · simp [descTs, h]

/-- The sorted prefix returned by `get_history` starts with the strictly
most recent element of the filtered collection. -/
lemma sorted_take_head (f : List Turn) (x : Turn) (hx : x ∈ f)
    (hmax : ∀ y ∈ f, y ≠ x → y.timestamp < x.timestamp) :
    ((f.mergeSort descTs).take 50).head? = some x := by
  have hperm := List.mergeSort_perm f descTs
  have hsorted :=
    (List.sorted_mergeSort descTs_trans descTs_total f).imp
      (fun h => of_decide_eq_true h)
  have hxm : x ∈ f.mergeSort descTs := hperm.mem_iff.mpr hx
  cases hms : f.mergeSort descTs with
  | nil => rw [hms] at hxm; cases hxm
  | cons h rest =>
      rw [hms] at hxm hsorted
      have hhead : h = x := by
        rcases List.mem_cons.mp hxm with heq | hxr
        · exact heq.symm
        · have hle : x.timestamp ≤ h.timestamp :=
            (List.pairwise_cons.mp hsorted).1 x hxr
          have hhf : h ∈ f := hperm.mem_iff.mp (by rw [hms]; exact .head _)
          by_cases heq : h = x
          · exact heq
          · exact absurd (lt_of_le_of_lt hle (hmax h hhf heq)) (lt_irrefl _)
      simp [hhead]

/-- C8: `get_history` returns only turns belonging to the requesting
user, in descending timestamp order, never more than 50 of them; and
after a successful chat turn whose instant is later than every existing
turn, that new turn is returned first. -/
theorem history_newest_first_capped (gen : Except String String)
    (ins : Except String Unit) (users : List UserRec) (token : JwtToken)
    (now : ℚ) (msg : String) (newId : Nat) (store : List Turn)
    (user : UserRec) (text : String)
    (hauth : get_current_user users token now = .ok user)
    (hgen : gen = .ok text) (hins : ins = .ok ())
    (hfresh : ∀ t ∈ store, t.timestamp < now) :
    (∀ (s : List Turn) (v : UserRec) (t : Turn),
        t ∈ get_history s v → t.user_id = toString v.oid) ∧
    (∀ (s : List Turn) (v : UserRec),
        (get_history s v).Pairwise (fun a b => b.timestamp ≤ a.timestamp)) ∧
    (∀ (s : List Turn) (v : UserRec), (get_history s v).length ≤ 50) ∧
    ((chat true gen ins users token now msg newId store).2 =
        store ++ [⟨newId, toString user.oid, msg, text, now⟩] ∧
      (get_history (chat true gen ins users token now msg newId store).2
          user).head? = some ⟨newId, toString user.oid, msg, text, now⟩) := by
  refine ⟨?_, ?_, ?_, ?_, ?_⟩
  · intro s v t ht
    have h1 : t ∈ (s.filter
        (fun t => decide (t.user_id = toString v.oid))).mergeSort descTs :=
      List.mem_of_mem_take ht
    have h2 := (List.mergeSort_perm _ descTs).mem_iff.mp h1
    exact of_decide_eq_true (List.mem_filter.mp h2).2
  · intro s v
    have hsorted :=
      (List.sorted_mergeSort descTs_trans descTs_total
        (s.filter (fun t => decide (t.user_id = toString v.oid)))).imp
        (fun h => of_decide_eq_true h)
    exact hsorted.sublist (List.take_sublist 50 _)
  · intro s v
    exact List.length_take_le 50 _
  · simp [chat, hauth, hgen, hins]
  · have hchat : (chat true gen ins users token now msg newId store).2 =
        store ++ [⟨newId, toString user.oid, msg, text, now⟩] := by
      simp [chat, hauth, hgen, hins]
    rw [hchat]
    show ((((store ++
          [(⟨newId, toString user.oid, msg, text, now⟩ : Turn)]).filter
        (fun t : Turn => decide (t.user_id = toString user.oid))).mergeSort
        descTs).take 50).head? =
      some (⟨newId, toString user.oid, msg, text, now⟩ : Turn)
    apply sorted_take_head
    · exact List.mem_filter.mpr
        ⟨List.mem_append_right _ (List.mem_singleton_self _), by simp⟩
    · intro y hy hne
      rcases List.mem_append.mp (List.mem_filter.mp hy).1 with hys | hyn
      · exact hfresh y hys
      · exact absurd (List.mem_singleton.mp hyn) hne

theorem history_newest_first_capped_witness :
    (chat true (.ok "reply") (.ok ())
        [⟨0, "alice", "alice@x.com", "secret", 0⟩]
        ⟨⟨some "alice", 100⟩, SECRET_KEY⟩ 7 "hello" 1 []).2 =
      [] ++ [⟨1, toString (0 : Nat), "hello", "reply", 7⟩] ∧
    (get_history
        (chat true (.ok "reply") (.ok ())
          [⟨0, "alice", "alice@x.com", "secret", 0⟩]
          ⟨⟨some "alice", 100⟩, SECRET_KEY⟩ 7 "hello" 1 []).2
        ⟨0, "alice", "alice@x.com", "secret", 0⟩).head? =
      some ⟨1, toString (0 : Nat), "hello", "reply", 7⟩ :=
  (history_newest_first_capped (.ok "reply") (.ok ())
    [⟨0, "alice", "alice@x.com", "secret", 0⟩]
    ⟨⟨some "alice", 100⟩, SECRET_KEY⟩ 7 "hello" 1 []
    ⟨0, "alice", "alice@x.com", "secret", 0⟩ "reply" rfl rfl rfl
    (by intro t ht; cases ht)).2.2.2

/-! ## Rate limiter lemmas -/

lemma rlLookup_rlSet (m : RLMap) (c c' : String) (v : List ℚ) :
    rlLookup (rlSet m c v) c' = if c = c' then some v else rlLookup m c' := by
  induction m with
  | nil =>
      by_cases hc : c = c' <;> simp [rlSet, rlLookup, hc]
  | cons kv rest ih =>
      obtain ⟨k, w⟩ := kv
      by_cases hk : k = c
      · subst hk
        by_cases hc : k = c' <;> simp [rlSet, rlLookup, hc]
      · by_cases hk' : k = c'
        · subst hk'
          have hc : ¬ c = k := fun h => hk h.symm
          simp [rlSet, rlLookup, hk, hc]
        · simp [rlSet, rlLookup, hk, hk', ih]

lemma entryOf_rlSet_self (m : RLMap) (c : String) (v : List ℚ) :
    entryOf (rlSet m c v) c = v := by
  simp [entryOf, rlLookup_rlSet]

/-- An admitted `check` stores exactly the pruned list with `now`
appended. -/
lemma check_admit_entry (limit : Nat) (m : RLMap) (c : String) (now : ℚ)
    (h : (RateLimiter.check limit m c now).1 = true) :
    entryOf (RateLimiter.check limit m c now).2 c =
      prune (entryOf m c) now ++ [now] := by
  cases hl : rlLookup m c with
  | none =>
      simp [RateLimiter.check, hl, entryOf, prune, rlLookup_rlSet]
  | some ts =>
      by_cases hlen : limit ≤ (prune ts now).length
      · exfalso
        simp [RateLimiter.check, hl, hlen] at h
      · simp [RateLimiter.check, hl, hlen, entryOf, rlLookup_rlSet]

/-- A denied `check` leaves the dict untouched. -/
lemma check_deny_state (limit : Nat) (m : RLMap) (c : String) (now : ℚ)
    (h : (RateLimiter.check limit m c now).1 = false) :
    (RateLimiter.check limit m c now).2 = m := by
  cases hl : rlLookup m c with
  | none => simp [RateLimiter.check, hl] at h
  | some ts =>
      by_cases hlen : limit ≤ (prune ts now).length
      · simp [RateLimiter.check, hl, hlen]
      · simp [RateLimiter.check, hl, hlen] at h

/-- Entries still inside the window survive pruning. -/
lemma sublist_prune (l s : List ℚ) (t : ℚ) (hl : ∀ x ∈ l, t - x < 60)
    (hs : l.Sublist s) : l.Sublist (prune s t) := by
  have h1 := hs.filter (fun x => decide (t - x < 60))
  rw [List.filter_eq_self.mpr (fun a ha => decide_eq_true (hl a ha))] at h1
  exact h1

/-- Along a run of admitted calls whose instants stay inside the trailing
window of `now`, every instant already retained inside that window — and
every admitted instant — is still retained at the end. -/
lemma runChecks_sublist (limit : Nat) (now : ℚ) :
    ∀ (ts : List ℚ) (m : RLMap) (c : String) (l : List ℚ),
      (∀ b ∈ (runChecks limit m c ts).2, b = true) →
      (∀ t ∈ ts, now - t < 60 ∧ t ≤ now) →
      (∀ x ∈ l, now - x < 60) →
      l.Sublist (entryOf m c) →
      (l ++ ts).Sublist (entryOf (runChecks limit m c ts).1 c) := by
  intro ts
  induction ts with
  | nil =>
      intro m c l _ _ _ hsub
      simpa [runChecks] using hsub
  | cons t rest ih =>
      intro m c l hadm hwin hl hsub
      have hstep : (RateLimiter.check limit m c t).1 = true := by
        apply hadm
        simp [runChecks]
      have htwin := hwin t (List.mem_cons_self t rest)
      have hsub' : (l ++ [t]).Sublist
          (entryOf (RateLimiter.check limit m c t).2 c) := by
        rw [check_admit_entry limit m c t hstep]
        refine List.Sublist.append ?_ (List.Sublist.refl [t])
        refine sublist_prune l (entryOf m c) t ?_ hsub
        intro x hx
        have h1 : t - x ≤ now - x := sub_le_sub_right htwin.2 x
        exact lt_of_le_of_lt h1 (hl x hx)
      have hl' : ∀ x ∈ l ++ [t], now - x < 60 := by
        intro x hx
        rcases List.mem_append.mp hx with hxl | hxt
        · exact hl x hxl
        · rw [List.mem_singleton.mp hxt]; exact htwin.1
      have hadm' : ∀ b ∈ (runChecks limit (RateLimiter.check limit m c t).2 c
          rest).2, b = true := by
        intro b hb
        apply hadm
        simp [runChecks, hb]
      have hwin' : ∀ u ∈ rest, now - u < 60 ∧ u ≤ now := fun u hu =>
        hwin u (List.mem_cons_of_mem t hu)
      have hmain := ih (RateLimiter.check limit m c t).2 c (l ++ [t]) hadm'
        hwin' hl' hsub'
      have hfin : (runChecks limit m c (t :: rest)).1 =
          (runChecks limit (RateLimiter.check limit m c t).2 c rest).1 := by
        simp [runChecks]
      rw [hfin, List.append_cons]
      exact hmain

/-! ## C1: denial after `limit` admitted requests inside the window -/

/-- C1: on each call, `check` decides from the retained instants still
inside the trailing 60-second window: at least `limit` of them means
deny-and-record-nothing, fewer means append-`now`-and-admit.
Consequently, after `limit` admitted requests from a client whose
instants all lie inside the trailing window of `now`, the next request of
that client at `now` is denied, and no timestamp is recorded for it (the
dict is returned unchanged). -/
theorem rate_limit_denies_after_limit (limit : Nat) (m0 : RLMap) (c : String)
    (ts : List ℚ) (now : ℚ) (hpos : 0 < limit)
    (hadm : ∀ b ∈ (runChecks limit m0 c ts).2, b = true)
    (hlen : limit ≤ ts.length)
    (hwin : ∀ t ∈ ts, now - t < 60 ∧ t ≤ now) :
    (∀ (m : RLMap) (ip : String) (n : ℚ) (ts0 : List ℚ),
        rlLookup m ip = some ts0 →
        (limit ≤ (prune ts0 n).length →
            RateLimiter.check limit m ip n = (false, m)) ∧
        ((prune ts0 n).length < limit →
            RateLimiter.check limit m ip n =
              (true, rlSet m ip (prune ts0 n ++ [n])))) ∧
    RateLimiter.check limit (runChecks limit m0 c ts).1 c now =
      (false, (runChecks limit m0 c ts).1) := by
  constructor
  · intro m ip n ts0 hl
    constructor
    · intro h
      simp [RateLimiter.check, hl, h]
    · intro h
      simp [RateLimiter.check, hl, Nat.not_le.mpr h]
  · have hsub : ts.Sublist (entryOf (runChecks limit m0 c ts).1 c) := by
      have := runChecks_sublist limit now ts m0 c [] hadm hwin
        (by intro x hx; cases hx) (List.nil_sublist _)
      simpa using this
    have hsub2 : ts.Sublist (prune (entryOf (runChecks limit m0 c ts).1 c)
        now) :=
      sublist_prune ts _ now (fun t ht => (hwin t ht).1) hsub
    have hlen2 : limit ≤
        (prune (entryOf (runChecks limit m0 c ts).1 c) now).length :=
      le_trans hlen hsub2.length_le
    cases hl : rlLookup (runChecks limit m0 c ts).1 c with
    | none =>
        rw [entryOf, hl] at hlen2
        simp [prune] at hlen2
        omega
    | some ts0 =>
        rw [entryOf, hl] at hlen2
        simp only [Option.getD_some] at hlen2
        simp [RateLimiter.check, hl, hlen2]

theorem rate_limit_denies_after_limit_witness :
    RateLimiter.check 1 (runChecks 1 [] "1.2.3.4" [(0 : ℚ)]).1 "1.2.3.4" 1 =
      (false, (runChecks 1 [] "1.2.3.4" [(0 : ℚ)]).1) :=
  (rate_limit_denies_after_limit 1 [] "1.2.3.4" [(0 : ℚ)] 1 (by decide)
    (by decide) (by decide)
    (by intro t ht; rw [List.eq_of_mem_singleton ht]; norm_num)).2

/-! ## C5: retained timestamps stay in-window and capped -/

/-- Every stored timestamp list has at most `limit` entries. -/
def LenBounded (limit : Nat) (m : RLMap) : Prop :=
  ∀ c ts, rlLookup m c = some ts → ts.length ≤ limit

/-- Every stored timestamp is at most `bound`. -/
def TimesBounded (m : RLMap) (bound : ℚ) : Prop :=
  ∀ c ts, rlLookup m c = some ts → ∀ t ∈ ts, t ≤ bound

lemma check_LenBounded (limit : Nat) (m : RLMap) (c : String) (now : ℚ)
    (hpos : 0 < limit) (h : LenBounded limit m) :
    LenBounded limit (RateLimiter.check limit m c now).2 := by
  cases hl : rlLookup m c with
  | none =>
      intro c' ts' h'
      simp only [RateLimiter.check, hl] at h'
      rw [rlLookup_rlSet] at h'
      by_cases hc : c = c'
      · rw [if_pos hc] at h'
        cases h'
        simpa using hpos
      · rw [if_neg hc] at h'
        exact h c' ts' h'
  | some ts =>
      by_cases hlen : limit ≤ (prune ts now).length
      · intro c' ts' h'
        simp only [RateLimiter.check, hl, if_pos hlen] at h'
        exact h c' ts' h'
      · intro c' ts' h'
        simp only [RateLimiter.check, hl, if_neg hlen] at h'
        rw [rlLookup_rlSet] at h'
        by_cases hc : c = c'
        · rw [if_pos hc] at h'
          cases h'
          simp only [List.length_append, List.length_singleton]
          omega
        · rw [if_neg hc] at h'
          exact h c' ts' h'

lemma check_TimesBounded (limit : Nat) (m : RLMap) (c : String)
    (now bound : ℚ) (h : TimesBounded m bound) (hnow : now ≤ bound) :
    TimesBounded (RateLimiter.check limit m c now).2 bound := by
  cases hl : rlLookup m c with
  | none =>
      intro c' ts' h' t ht
      simp only [RateLimiter.check, hl] at h'
      rw [rlLookup_rlSet] at h'
      by_cases hc : c = c'
      · rw [if_pos hc] at h'
        cases h'
        rw [List.mem_singleton.mp ht]
        exact hnow
      · rw [if_neg hc] at h'
        exact h c' ts' h' t ht
  | some ts =>
      by_cases hlen : limit ≤ (prune ts now).length
      · intro c' ts' h' t ht
        simp only [RateLimiter.check, hl, if_pos hlen] at h'
        exact h c' ts' h' t ht
      · intro c' ts' h' t ht
        simp only [RateLimiter.check, hl, if_neg hlen] at h'
        rw [rlLookup_rlSet] at h'
        by_cases hc : c = c'
        · rw [if_pos hc] at h'
          cases h'
          rcases List.mem_append.mp ht with hp | hn
          · exact h c ts hl t (List.mem_of_mem_filter hp)
          · rw [List.mem_singleton.mp hn]
            exact hnow
        · rw [if_neg hc] at h'
          exact h c' ts' h' t ht

lemma runTrace_LenBounded (limit : Nat) (hpos : 0 < limit) :
    ∀ (trace : List (String × ℚ)) (m : RLMap), LenBounded limit m →
      LenBounded limit (runTrace limit m trace) := by
  intro trace
  induction trace with
  | nil => intro m h; exact h
  | cons ct rest ih =>
      intro m h
      exact ih _ (check_LenBounded limit m ct.1 ct.2 hpos h)

lemma runTrace_TimesBounded (limit : Nat) (bound : ℚ) :
    ∀ (trace : List (String × ℚ)) (m : RLMap), TimesBounded m bound →
      (∀ ct ∈ trace, ct.2 ≤ bound) →
      TimesBounded (runTrace limit m trace) bound := by
  intro trace
  induction trace with
  | nil => intro m h _; exact h
  | cons ct rest ih =>
      intro m h hall
      exact ih _
        (check_TimesBounded limit m ct.1 ct.2 bound h
          (hall ct (List.mem_cons_self ct rest)))
        (fun x hx => hall x (List.mem_cons_of_mem ct hx))

/-- After any `check`, the caller's stored instants all lie inside the
trailing 60-second window of the call instant — provided the incoming
dict satisfies the two reachability invariants. -/
lemma check_caller_window (limit : Nat) (m : RLMap) (c : String) (now : ℚ)
    (hlen : LenBounded limit m) (htime : TimesBounded m now) :
    ∀ ts', rlLookup (RateLimiter.check limit m c now).2 c = some ts' →
      ∀ t ∈ ts', now - t < 60 ∧ t ≤ now := by
  intro ts' h' t ht
  cases hl : rlLookup m c with
  | none =>
      simp only [RateLimiter.check, hl] at h'
      rw [rlLookup_rlSet, if_pos rfl] at h'
      cases h'
      rw [List.mem_singleton.mp ht]
      exact ⟨by rw [sub_self]; norm_num, le_refl now⟩
  | some ts =>
      by_cases hb : limit ≤ (prune ts now).length
      · simp only [RateLimiter.check, hl, if_pos hb] at h'
        injection h' with h''
        subst h''
        have h1 : (prune ts now).length ≤ ts.length :=
          List.length_filter_le _ _
        have h2 : ts.length ≤ limit := hlen c ts hl
        have heq : (prune ts now).length = ts.length :=
          le_antisymm h1 (le_trans h2 hb)
        have hfull : prune ts now = ts :=
          (List.filter_sublist _).eq_of_length heq
        have hall := List.filter_eq_self.mp hfull
        exact ⟨of_decide_eq_true (hall t ht), htime c ts hl t ht⟩
      · simp only [RateLimiter.check, hl, if_neg hb] at h'
        rw [rlLookup_rlSet, if_pos rfl] at h'
        cases h'
        rcases List.mem_append.mp ht with hp | hn
        · exact ⟨of_decide_eq_true (List.mem_filter.mp hp).2,
            htime c ts hl t (List.mem_of_mem_filter hp)⟩
        · rw [List.mem_singleton.mp hn]
          exact ⟨by rw [sub_self]; norm_num, le_refl now⟩

/-- C5: starting from the empty dict and running any interleaving of
calls whose instants do not exceed `now`, after one more completed call
(admitted or denied) for client `c` at instant `now`: every timestamp
retained for `c` lies inside the trailing 60-second window of `now`, and
no client's stored list ever exceeds the configured limit. -/
theorem rate_limiter_invariant (limit : Nat) (trace : List (String × ℚ))
    (c : String) (now : ℚ) (hpos : 0 < limit)
    (hmono : ∀ ct ∈ trace, ct.2 ≤ now) :
    (∀ ts, rlLookup (RateLimiter.check limit (runTrace limit [] trace) c
        now).2 c = some ts → ∀ t ∈ ts, now - t < 60 ∧ t ≤ now) ∧
    (∀ ip ts, rlLookup (RateLimiter.check limit (runTrace limit [] trace) c
        now).2 ip = some ts → ts.length ≤ limit) := by
  have hlen0 : LenBounded limit ([] : RLMap) := by
    intro c' ts h
    simp [rlLookup] at h
  have htime0 : TimesBounded ([] : RLMap) now := by
    intro c' ts h
    simp [rlLookup] at h
  have hlenm := runTrace_LenBounded limit hpos trace [] hlen0
  have htimem := runTrace_TimesBounded limit now trace [] htime0 hmono
  constructor
  · exact check_caller_window limit _ c now hlenm htimem
  · intro ip ts h
    exact check_LenBounded limit _ c now hpos hlenm ip ts h

theorem rate_limiter_invariant_witness :
    (5 : ℚ) - 5 < 60 ∧ (5 : ℚ) ≤ 5 :=
  (rate_limiter_invariant 60 [] "9.9.9.9" 5 (by decide)
    (by intro ct h; cases h)).1 [5] rfl 5 (by decide)

end Chatbot
